import Mathlib

/-! TerminalChess, `c.cpp`: the Fibonacci printer.

A shallow embedding of `src/c.cpp`.  The C++ type `int` is modelled by `Int`
with an explicit 32-bit two's-complement wrap after every arithmetic
operation, `std::vector<int>` by `List Int` (`push_back` appends at the end),
and `std::cout` by the list of newline-terminated lines written so far.
Loops are run with fuel; an index outside the vector is reported as a fault
instead of being read.
-/

namespace TerminalChess

/-! ## Native integers -/

/-- Smallest value of the 32-bit `int`. -/
def INT_MIN : Int := -2147483648

/-- Largest value of the 32-bit `int`. -/
def INT_MAX : Int := 2147483647

/-- Two's-complement reduction of a mathematical integer to the 32-bit `int`
range `[-2^31, 2^31)`. -/
def wrapInt (x : Int) : Int := (x + 2147483648) % 4294967296 - 2147483648

/-- The `+` of `int`. -/
def addInt (a b : Int) : Int := wrapInt (a + b)

/-- The `-` of `int`. -/
def subInt (a b : Int) : Int := wrapInt (a - b)

/-- Conversion of an `int` to the 64-bit unsigned `size_t`, as done implicitly
when an `int` indexes a vector or is compared with `size()`. -/
def toSizeT (x : Int) : Nat := (x % 18446744073709551616).toNat

deriving instance DecidableEq for Except

/-! ## Faults of the fuelled model -/

/-- Ways in which a fuelled run fails to return. -/
inductive Fault where
  /-- The loop was still running when the fuel ran out. -/
  | outOfFuel
  /-- A vector was indexed at or beyond its size. -/
  | outOfBounds
  deriving DecidableEq, Repr

/-- Unchecked `operator[]` of `std::vector<int>` made total: an index at or
beyond `size()` is a fault. -/
def vecAt (numbers : List Int) (idx : Nat) : Except Fault Int :=
  match numbers[idx]? with
  | some v => .ok v
  | none => .error .outOfBounds

/-! ## `fibonacciSequence` -/

/-- The growth loop `for (int i = 2; i <= no; i++) { ... push_back ... }`,
entered with counter `i` and vector `numbers`.  The last argument counts the
executions of the loop body so far; the loop returns the final vector together
with that count. -/
def growLoop : Nat → Int → Int → List Int → Nat → Except Fault (List Int × Nat)
  | 0, _, _, _, _ => .error .outOfFuel
  | fuel + 1, no, i, numbers, iters =>
    if i ≤ no then
      match vecAt numbers (toSizeT (subInt i 1)), vecAt numbers (toSizeT (subInt i 2)) with
      | .ok a, .ok b =>
        let next_no := addInt a b
        growLoop fuel no (addInt i 1) (numbers ++ [next_no]) (iters + 1)
      | _, _ => .error .outOfBounds
    else .ok (numbers, iters)

/-- Lines 6-11 of `fibonacciSequence`: the vector `numbers` as it stands when
the growth loop has finished, with the number of loop iterations. -/
def growSequence (fuel : Nat) (no : Int) : Except Fault (List Int × Nat) :=
  growLoop fuel no 2 [0, 1] 0

/-- The sequence built by `fibonacciSequence(no)`. -/
def buildSequence (fuel : Nat) (no : Int) : Except Fault (List Int) :=
  match growSequence fuel no with
  | .ok r => .ok r.1
  | .error e => .error e

/-- One data line: `std::cout << i << " - " << v << "\n"`. -/
def dataLine (i v : Int) : String := toString i ++ " - " ++ toString v

/-- The print loop `for (int i = 0; i < numbers.size(); i++)`, entered with
counter `i` and the lines `out` already written. -/
def printLoop : Nat → Int → List Int → List String → Except Fault (List String)
  | 0, _, _, _ => .error .outOfFuel
  | fuel + 1, i, numbers, out =>
    if toSizeT i < numbers.length then
      match vecAt numbers (toSizeT i) with
      | .ok v => printLoop fuel (addInt i 1) numbers (out ++ [dataLine i v])
      | .error e => .error e
    else .ok out

/-- `fibonacciSequence(no)`: the lines it writes to standard output. -/
def fibonacciSequence (fuel : Nat) (no : Int) : Except Fault (List String) :=
  match buildSequence fuel no with
  | .ok numbers => printLoop fuel 0 numbers []
  | .error e => .error e

/-! ## `main` -/

/-- Whole seconds in `ticks` clock ticks, `duration_cast<seconds>`: the
quotient truncated toward zero.  `ticksPerSecond` is the tick rate of
`high_resolution_clock`. -/
def durationSeconds (ticksPerSecond : Nat) (ticks : Int) : Int :=
  Int.tdiv ticks (ticksPerSecond : Int)

/-- The last line written by `main`. -/
def timingLine (seconds : Int) : String :=
  "Time taken by the function: " ++ toString seconds ++ " seconds"

/-- The body of `main` below the declaration of `n`: a timed run with count
`n`.  `start` and `stop` are the two clock samples, in ticks.  The result is
the lines written to standard output and the returned status. -/
def timedRun (fuel : Nat) (ticksPerSecond : Nat) (start stop : Int) (n : Int) :
    Except Fault (List String × Int) :=
  match fibonacciSequence fuel n with
  | .ok out =>
    let duration := durationSeconds ticksPerSecond (stop - start)
    .ok (out ++ [timingLine duration], 0)
  | .error e => .error e

/-- The program: `int n = 10000;` followed by the timed run. -/
def main (fuel : Nat) (ticksPerSecond : Nat) (start stop : Int) :
    Except Fault (List String × Int) :=
  let n : Int := 10000
  timedRun fuel ticksPerSecond start stop n

/-! ## Closed forms used in the proofs -/

/-- The Fibonacci recurrence computed in `int`: the value the growth loop
stores at index `k`. -/
def fibInt : Nat → Int
  | 0 => 0
  | 1 => 1
  | k + 2 => addInt (fibInt (k + 1)) (fibInt k)

/-- Number of elements of the vector when the growth loop is left: the two
seeds, and one more element for every index from 2 through `no`. -/
def seqLength (no : Int) : Nat := if no < 2 then 2 else no.toNat + 1

/-- The data lines of the elements `vs`, the first of which has index `j`. -/
def linesFrom : Nat → List Int → List String
  | _, [] => []
  | j, v :: vs => dataLine (j : Int) v :: linesFrom (j + 1) vs

/-- The growth loop of `growLoop` observed at the head of its body: for every
execution of the body, in order, the counter `i` and the size of the vector on
entry.  The list ends where the loop ends: when the test `i <= no` fails, on a
fault, or when the fuel is used up. -/
def growTrace : Nat → Int → Int → List Int → List (Int × Nat)
  | 0, _, _, _ => []
  | fuel + 1, no, i, numbers =>
    if i ≤ no then
      (i, numbers.length) ::
        match vecAt numbers (toSizeT (subInt i 1)), vecAt numbers (toSizeT (subInt i 2)) with
        | .ok a, .ok b => growTrace fuel no (addInt i 1) (numbers ++ [addInt a b])
        | _, _ => []
    else []

/-! ## Arithmetic of `int` -/

theorem wrapInt_range (x : Int) : INT_MIN ≤ wrapInt x ∧ wrapInt x ≤ INT_MAX := by
  unfold INT_MIN INT_MAX wrapInt
  omega

theorem wrapInt_add_wrapInt (a b : Int) : wrapInt (wrapInt a + wrapInt b) = wrapInt (a + b) := by
  unfold wrapInt
  omega

theorem toSizeT_natCast (m : Nat) (h : m < 18446744073709551616) : toSizeT (m : Int) = m := by
  unfold toSizeT
  omega

theorem vecAt_map_range (f : Nat → Int) (m j : Nat) (h : j < m) :
    vecAt ((List.range m).map f) j = .ok (f j) := by
  simp [vecAt, List.getElem?_range h]

/-! ## The growth loop -/

/-- Loop invariant of the growth loop, run to its end: entered at counter `m`
with the first `m` values of `fibInt` in the vector and `k` iterations to go,
the loop returns the first `m + k` values after exactly `k` more iterations. -/
theorem growLoop_spec (no : Int) (hno : no < INT_MAX) :
    ∀ (k fuel m iters : Nat), 2 ≤ m → (m : Int) + k = no + 1 → k < fuel →
      growLoop fuel no (m : Int) ((List.range m).map fibInt) iters
        = .ok ((List.range (m + k)).map fibInt, iters + k) := by
  unfold INT_MAX at hno
  intro k
  induction k with
  | zero =>
    intro fuel m iters _ hmk hfuel
    obtain ⟨f, rfl⟩ : ∃ f, fuel = f + 1 := ⟨fuel - 1, by omega⟩
    have hgt : ¬ ((m : Int) ≤ no) := by omega
    simp [growLoop, hgt]
  | succ k ih =>
    intro fuel m iters hm hmk hfuel
    obtain ⟨f, rfl⟩ : ∃ f, fuel = f + 1 := ⟨fuel - 1, by omega⟩
    have hle : (m : Int) ≤ no := by omega
    have h1 : toSizeT (subInt (m : Int) 1) = m - 1 := by
      unfold toSizeT subInt wrapInt
      omega
    have h2 : toSizeT (subInt (m : Int) 2) = m - 2 := by
      unfold toSizeT subInt wrapInt
      omega
    have h3 : addInt (m : Int) 1 = ((m + 1 : Nat) : Int) := by
      unfold addInt wrapInt
      omega
    have hv1 := vecAt_map_range fibInt m (m - 1) (by omega)
    have hv2 := vecAt_map_range fibInt m (m - 2) (by omega)
    have hnext : addInt (fibInt (m - 1)) (fibInt (m - 2)) = fibInt m := by
      obtain ⟨j, rfl⟩ : ∃ j, m = j + 2 := ⟨m - 2, by omega⟩
      simp [fibInt]
    have hpush : (List.range m).map fibInt ++ [fibInt m] = (List.range (m + 1)).map fibInt := by
      simp [List.range_succ]
    have hrec := ih f (m + 1) (iters + 1) (by omega) (by push_cast; omega) (by omega)
    rw [growLoop, if_pos hle, h1, h2, hv1, hv2]
    simp only [hnext, hpush, h3]
    rw [hrec, Nat.add_right_comm m 1 k, Nat.add_right_comm iters 1 k, Nat.add_assoc m k 1,
      Nat.add_assoc iters k 1]

/-- A count below 2 leaves the seeds untouched: the loop body never runs. -/
theorem growSequence_small (no : Int) (fuel : Nat) (hno : no < 2) (hfuel : 0 < fuel) :
    growSequence fuel no = .ok ([0, 1], 0) := by
  obtain ⟨f, rfl⟩ : ∃ f, fuel = f + 1 := ⟨fuel - 1, by omega⟩
  have hgt : ¬ ((2 : Int) ≤ no) := by omega
  simp [growSequence, growLoop, hgt]

/-- A count `n + 2` below `INT_MAX` yields the first `n + 3` values of
`fibInt` after `n + 1` iterations. -/
theorem growSequence_large (n fuel : Nat) (hno : ((n + 2 : Nat) : Int) < INT_MAX)
    (hfuel : n + 1 < fuel) :
    growSequence fuel ((n + 2 : Nat) : Int) = .ok ((List.range (n + 3)).map fibInt, n + 1) := by
  have h := growLoop_spec ((n + 2 : Nat) : Int) hno (n + 1) fuel 2 0 (by omega)
    (by push_cast; omega) hfuel
  have hseed : (List.range 2).map fibInt = [0, 1] := by decide
  rw [hseed] at h
  unfold growSequence
  simp only [Nat.cast_ofNat] at h
  rw [h, Nat.zero_add, show 2 + (n + 1) = n + 3 by omega]

/-- The growth loop returns, for every count below `INT_MAX`, with the first
`seqLength no` values of `fibInt` after `seqLength no - 2` iterations. -/
theorem growSequence_eq (no : Int) (fuel : Nat) (hno : no < INT_MAX) (h0 : 0 < fuel)
    (hfuel : no ≤ (fuel : Int)) :
    growSequence fuel no = .ok ((List.range (seqLength no)).map fibInt, seqLength no - 2) := by
  by_cases h2 : no < 2
  · rw [growSequence_small no fuel h2 h0]
    simp only [seqLength, if_pos h2]
    decide
  · obtain ⟨n, rfl⟩ : ∃ n : Nat, no = ((n + 2 : Nat) : Int) := ⟨(no - 2).toNat, by omega⟩
    rw [growSequence_large n fuel hno (by omega)]
    simp only [seqLength, if_neg h2]
    rw [Int.toNat_ofNat, show n + 2 + 1 - 2 = n + 1 by omega]

theorem buildSequence_eq (no : Int) (fuel : Nat) (hno : no < INT_MAX) (h0 : 0 < fuel)
    (hfuel : no ≤ (fuel : Int)) :
    buildSequence fuel no = .ok ((List.range (seqLength no)).map fibInt) := by
  rw [buildSequence, growSequence_eq no fuel hno h0 hfuel]

theorem seqLength_le (no : Int) (hno : no < INT_MAX) : ((seqLength no : Nat) : Int) ≤ INT_MAX := by
  unfold INT_MAX at *
  unfold seqLength
  split <;> omega

/-- With the count `INT_MAX` the loop test `i <= no` holds for every value of
the wrapping counter, so no amount of fuel lets the growth loop return. -/
theorem growLoop_INT_MAX_not_ok :
    ∀ (fuel : Nat) (i : Int) (numbers : List Int) (iters : Nat) (r : List Int × Nat),
      i ≤ INT_MAX → growLoop fuel INT_MAX i numbers iters ≠ .ok r := by
  intro fuel
  induction fuel with
  | zero =>
    intro i numbers iters r _ h
    simp [growLoop] at h
  | succ f ih =>
    intro i numbers iters r hi h
    rw [growLoop, if_pos hi] at h
    split at h
    · exact ih _ _ _ r (wrapInt_range _).2 h
    · simp at h

/-! ## The values stored -/

theorem fibInt_eq_wrapInt : ∀ k : Nat, fibInt k = wrapInt (Nat.fib k)
  | 0 => by decide
  | 1 => by decide
  | k + 2 => by
    rw [fibInt, fibInt_eq_wrapInt k, fibInt_eq_wrapInt (k + 1), addInt, wrapInt_add_wrapInt,
      Nat.fib_add_two]
    push_cast
    rw [Int.add_comm]

theorem fib_47 : Nat.fib 47 = 2971215073 := by norm_num [Nat.fib_add_two]

theorem linesFrom_length (vs : List Int) : ∀ j, (linesFrom j vs).length = vs.length := by
  induction vs with
  | nil => intro j; rfl
  | cons v vs ih => intro j; simp [linesFrom, ih]

theorem linesFrom_getElem? (vs : List Int) :
    ∀ j i, (linesFrom j vs)[i]? = vs[i]?.map (fun v => dataLine ((j + i : Nat) : Int) v) := by
  induction vs with
  | nil => intro j i; simp [linesFrom]
  | cons v vs ih =>
    intro j i
    cases i with
    | zero => simp [linesFrom]
    | succ i =>
      simp only [linesFrom, List.getElem?_cons_succ, ih]
      rw [show j + 1 + i = j + (i + 1) by omega]

/-- Loop invariant of the print loop, run to its end: entered at counter `j`
with `k` elements to go, the loop appends their data lines in index order. -/
theorem printLoop_spec (numbers : List Int) (hlen : (numbers.length : Int) ≤ INT_MAX) :
    ∀ (k fuel j : Nat) (out : List String), j + k = numbers.length → k < fuel →
      printLoop fuel (j : Int) numbers out = .ok (out ++ linesFrom j (numbers.drop j)) := by
  unfold INT_MAX at hlen
  intro k
  induction k with
  | zero =>
    intro fuel j out hjk hfuel
    obtain ⟨f, rfl⟩ : ∃ f, fuel = f + 1 := ⟨fuel - 1, by omega⟩
    have hj : toSizeT (j : Int) = j := toSizeT_natCast j (by omega)
    have hdrop : numbers.drop j = [] := List.drop_of_length_le (by omega)
    rw [printLoop, hj, if_neg (by omega), hdrop]
    simp [linesFrom]
  | succ k ih =>
    intro fuel j out hjk hfuel
    obtain ⟨f, rfl⟩ : ∃ f, fuel = f + 1 := ⟨fuel - 1, by omega⟩
    have hj : toSizeT (j : Int) = j := toSizeT_natCast j (by omega)
    have hlt : j < numbers.length := by omega
    have hv : vecAt numbers j = .ok numbers[j] := by
      simp [vecAt, List.getElem?_eq_getElem hlt]
    have hnext : addInt (j : Int) 1 = ((j + 1 : Nat) : Int) := by
      unfold addInt wrapInt
      omega
    have hdrop : numbers.drop j = numbers[j] :: numbers.drop (j + 1) :=
      List.drop_eq_getElem_cons hlt
    rw [printLoop, hj, if_pos hlt, hv]
    simp only [hnext]
    rw [ih f (j + 1) _ (by omega) (by omega), hdrop, linesFrom, List.append_assoc]
    rfl

/-- Whenever the growth loop returns a vector of at most `INT_MAX` elements,
the function writes exactly the data lines of that vector. -/
theorem fibonacciSequence_of_build (fuel : Nat) (no : Int) (numbers : List Int)
    (hbuild : buildSequence fuel no = .ok numbers) (hlen : (numbers.length : Int) ≤ INT_MAX)
    (hfuel : numbers.length < fuel) :
    fibonacciSequence fuel no = .ok (linesFrom 0 numbers) := by
  have h := printLoop_spec numbers hlen numbers.length fuel 0 [] (by omega) hfuel
  simp only [Nat.cast_zero, List.drop_zero, List.nil_append] at h
  rw [fibonacciSequence, hbuild]
  exact h

theorem fibonacciSequence_eq (no : Int) (fuel : Nat) (hno : no < INT_MAX) (h2 : 2 < fuel)
    (hfuel : no + 1 < (fuel : Int)) :
    fibonacciSequence fuel no = .ok (linesFrom 0 ((List.range (seqLength no)).map fibInt)) := by
  apply fibonacciSequence_of_build fuel no _ (buildSequence_eq no fuel hno (by omega) (by omega))
  · simpa using seqLength_le no hno
  · simp only [List.length_map, List.length_range]
    unfold seqLength
    split <;> omega

theorem getElem?_fibInt_range (m i : Nat) (h : i < m) :
    ((List.range m).map fibInt)[i]? = some (fibInt i) := by
  simp [List.getElem?_range h]

theorem lt_seqLength (no : Int) (i : Nat) (h : (i : Int) ≤ no) : i < seqLength no := by
  unfold seqLength
  split <;> omega

theorem linesFrom_append (xs ys : List Int) :
    ∀ j, linesFrom j (xs ++ ys) = linesFrom j xs ++ linesFrom (j + xs.length) ys := by
  induction xs with
  | nil => intro j; simp [linesFrom]
  | cons x xs ih =>
    intro j
    rw [List.cons_append, linesFrom, linesFrom, ih, List.length_cons, List.cons_append,
      show j + 1 + xs.length = j + (xs.length + 1) by omega]

/-- Whatever the count from 2 up, the output starts with the same three data
lines. -/
theorem linesFrom_fibInt_take_three (n : Nat) (rest : List String) :
    (linesFrom 0 ((List.range (3 + n)).map fibInt) ++ rest).take 3
      = ["0 - 0", "1 - 1", "2 - 1"] := by
  rw [List.range_add, List.map_append, linesFrom_append, List.append_assoc]
  have h3 : linesFrom 0 ((List.range 3).map fibInt) = ["0 - 0", "1 - 1", "2 - 1"] := by decide
  rw [h3]
  exact List.take_left' rfl

theorem durationSeconds_spec (ticksPerSecond : Nat) (ticks : Int) (htps : 0 < ticksPerSecond)
    (hticks : 0 ≤ ticks) :
    0 ≤ durationSeconds ticksPerSecond ticks ∧
      durationSeconds ticksPerSecond ticks * ticksPerSecond ≤ ticks ∧
      ticks < (durationSeconds ticksPerSecond ticks + 1) * ticksPerSecond ∧
      (ticks < ticksPerSecond → durationSeconds ticksPerSecond ticks = 0) := by
  have hpos : (0 : Int) < (ticksPerSecond : Int) := by exact_mod_cast htps
  unfold durationSeconds
  rw [Int.tdiv_eq_ediv hticks (Int.le_of_lt hpos)]
  exact ⟨Int.ediv_nonneg hticks (Int.le_of_lt hpos), Int.ediv_mul_le ticks (Int.ne_of_gt hpos),
    Int.lt_ediv_add_one_mul_self ticks hpos, fun h => Int.ediv_eq_zero_of_lt hticks h⟩

theorem timedRun_eq (fuel ticksPerSecond : Nat) (start stop n : Int) (hn : n < INT_MAX)
    (h2 : 2 < fuel) (hfuel : n + 1 < (fuel : Int)) :
    timedRun fuel ticksPerSecond start stop n
      = .ok (linesFrom 0 ((List.range (seqLength n)).map fibInt)
          ++ [timingLine (durationSeconds ticksPerSecond (stop - start))], 0) := by
  rw [timedRun, fibonacciSequence_eq n fuel hn h2 hfuel]

/-! ## Vector accesses -/

theorem vecAt_of_lt (numbers : List Int) (j : Nat) (h : j < numbers.length) :
    vecAt numbers j = .ok numbers[j] := by
  simp [vecAt, List.getElem?_eq_getElem h]

theorem vecAt_of_le (numbers : List Int) (j : Nat) (h : numbers.length ≤ j) :
    vecAt numbers j = .error .outOfBounds := by
  simp [vecAt, List.getElem?_eq_none h]

/-- One execution of the loop body whose two reads are in bounds. -/
theorem growLoop_body (f : Nat) (no i : Int) (numbers : List Int) (iters : Nat) (hi : i ≤ no)
    (ha : toSizeT (subInt i 1) < numbers.length) (hb : toSizeT (subInt i 2) < numbers.length) :
    ∃ v, growLoop (f + 1) no i numbers iters
      = growLoop f no (addInt i 1) (numbers ++ [v]) (iters + 1) := by
  refine ⟨addInt numbers[toSizeT (subInt i 1)] numbers[toSizeT (subInt i 2)], ?_⟩
  rw [growLoop, if_pos hi, vecAt_of_lt numbers _ ha, vecAt_of_lt numbers _ hb]

/-- One execution of the loop body whose first read is out of bounds. -/
theorem growLoop_fault (f : Nat) (no i : Int) (numbers : List Int) (iters : Nat) (hi : i ≤ no)
    (ha : numbers.length ≤ toSizeT (subInt i 1)) :
    growLoop (f + 1) no i numbers iters = .error .outOfBounds := by
  rw [growLoop, if_pos hi, vecAt_of_le numbers _ ha]

/-- Below `INT_MAX`, a loop entered at counter `m` with `m` elements in the
vector never indexes outside the vector, whatever the fuel. -/
theorem growLoop_no_fault (no : Int) (hno : no < INT_MAX) :
    ∀ (fuel m : Nat) (numbers : List Int) (iters : Nat), 2 ≤ m → numbers.length = m →
      growLoop fuel no (m : Int) numbers iters ≠ .error .outOfBounds := by
  unfold INT_MAX at hno
  intro fuel
  induction fuel with
  | zero =>
    intro m numbers iters _ _ h
    simp [growLoop] at h
  | succ f ih =>
    intro m numbers iters hm hlen
    by_cases hle : (m : Int) ≤ no
    · have h1 : toSizeT (subInt (m : Int) 1) = m - 1 := by
        unfold toSizeT subInt wrapInt
        omega
      have h2 : toSizeT (subInt (m : Int) 2) = m - 2 := by
        unfold toSizeT subInt wrapInt
        omega
      have h3 : addInt (m : Int) 1 = ((m + 1 : Nat) : Int) := by
        unfold addInt wrapInt
        omega
      obtain ⟨v, hv⟩ := growLoop_body f no (m : Int) numbers iters hle (by omega) (by omega)
      rw [hv, h3]
      exact ih (m + 1) _ _ (by omega) (by simp [hlen])
    · rw [growLoop, if_neg hle]
      simp

/-- The print loop tests the index against the size before every read. -/
theorem printLoop_no_fault :
    ∀ (fuel : Nat) (i : Int) (numbers : List Int) (out : List String),
      printLoop fuel i numbers out ≠ .error .outOfBounds := by
  intro fuel
  induction fuel with
  | zero =>
    intro i numbers out h
    simp [printLoop] at h
  | succ f ih =>
    intro i numbers out
    by_cases hlt : toSizeT i < numbers.length
    · rw [printLoop, if_pos hlt, vecAt_of_lt numbers _ hlt]
      exact ih _ _ _
    · rw [printLoop, if_neg hlt]
      simp

/-- Below `INT_MAX`, every body execution recorded by `growTrace` starts with
as many elements in the vector as the counter says. -/
theorem growTrace_inv (no : Int) (hno : no < INT_MAX) :
    ∀ (fuel m : Nat) (numbers : List Int), 2 ≤ m → numbers.length = m →
      ∀ p ∈ growTrace fuel no (m : Int) numbers,
        2 ≤ p.1 ∧ (p.2 : Int) = p.1 ∧ toSizeT (subInt p.1 1) < p.2 ∧
          toSizeT (subInt p.1 2) < p.2 := by
  unfold INT_MAX at hno
  intro fuel
  induction fuel with
  | zero =>
    intro m numbers _ _ p hp
    simp [growTrace] at hp
  | succ f ih =>
    intro m numbers hm hlen p hp
    by_cases hle : (m : Int) ≤ no
    · have h1 : toSizeT (subInt (m : Int) 1) = m - 1 := by
        unfold toSizeT subInt wrapInt
        omega
      have h2 : toSizeT (subInt (m : Int) 2) = m - 2 := by
        unfold toSizeT subInt wrapInt
        omega
      have h3 : addInt (m : Int) 1 = ((m + 1 : Nat) : Int) := by
        unfold addInt wrapInt
        omega
      rw [growTrace, if_pos hle, h1, h2, vecAt_of_lt numbers (m - 1) (by omega),
        vecAt_of_lt numbers (m - 2) (by omega)] at hp
      simp only [h3] at hp
      rcases List.mem_cons.mp hp with rfl | hp
      · refine ⟨by simpa using hm, by simp [hlen], ?_, ?_⟩
        · simp only [h1, hlen]
          omega
        · simp only [h2, hlen]
          omega
      · exact ih (m + 1) _ (by omega) (by simp [hlen]) p hp
    · rw [growTrace, if_neg hle] at hp
      simp at hp

/-- With enough fuel the body executions are those for `i = m, m + 1, ...`, up
to the count, each started with `i` elements in the vector. -/
theorem growTrace_eq (no : Int) (hno : no < INT_MAX) :
    ∀ (k fuel m : Nat) (numbers : List Int), 2 ≤ m → numbers.length = m →
      (m : Int) + k = no + 1 → k < fuel →
      growTrace fuel no (m : Int) numbers
        = (List.range' m k).map (fun j : Nat => ((j : Int), j)) := by
  unfold INT_MAX at hno
  intro k
  induction k with
  | zero =>
    intro fuel m numbers _ _ hmk hfuel
    obtain ⟨f, rfl⟩ : ∃ f, fuel = f + 1 := ⟨fuel - 1, by omega⟩
    rw [growTrace, if_neg (by omega)]
    rfl
  | succ k ih =>
    intro fuel m numbers hm hlen hmk hfuel
    obtain ⟨f, rfl⟩ : ∃ f, fuel = f + 1 := ⟨fuel - 1, by omega⟩
    have h1 : toSizeT (subInt (m : Int) 1) = m - 1 := by
      unfold toSizeT subInt wrapInt
      omega
    have h2 : toSizeT (subInt (m : Int) 2) = m - 2 := by
      unfold toSizeT subInt wrapInt
      omega
    have h3 : addInt (m : Int) 1 = ((m + 1 : Nat) : Int) := by
      unfold addInt wrapInt
      omega
    rw [growTrace, if_pos (by omega), h1, h2, vecAt_of_lt numbers (m - 1) (by omega),
      vecAt_of_lt numbers (m - 2) (by omega)]
    simp only [h3]
    rw [ih f (m + 1) _ (by omega) (by simp [hlen]) (by push_cast; omega) (by omega),
      List.range'_succ, List.map_cons, hlen]

/-! ## The count `INT_MAX` -/

/-- The first `k` iterations of a run that has at least `k` iterations before
the counter reaches `INT_MAX`: the loop is then at counter `m + k` with the
first `m + k` values of `fibInt` in the vector. -/
theorem growLoop_steps (no : Int) :
    ∀ (k f m iters : Nat), 2 ≤ m → (m : Int) + k ≤ no + 1 → (m : Int) + k ≤ INT_MAX →
      growLoop (f + k) no (m : Int) ((List.range m).map fibInt) iters
        = growLoop f no ((m + k : Nat) : Int) ((List.range (m + k)).map fibInt) (iters + k) := by
  unfold INT_MAX
  intro k
  induction k with
  | zero =>
    intro f m iters _ _ _
    rfl
  | succ k ih =>
    intro f m iters hm hmk hmax
    have hle : (m : Int) ≤ no := by omega
    have h1 : toSizeT (subInt (m : Int) 1) = m - 1 := by
      unfold toSizeT subInt wrapInt
      omega
    have h2 : toSizeT (subInt (m : Int) 2) = m - 2 := by
      unfold toSizeT subInt wrapInt
      omega
    have h3 : addInt (m : Int) 1 = ((m + 1 : Nat) : Int) := by
      unfold addInt wrapInt
      omega
    have hv1 := vecAt_map_range fibInt m (m - 1) (by omega)
    have hv2 := vecAt_map_range fibInt m (m - 2) (by omega)
    have hnext : addInt (fibInt (m - 1)) (fibInt (m - 2)) = fibInt m := by
      obtain ⟨j, rfl⟩ : ∃ j, m = j + 2 := ⟨m - 2, by omega⟩
      simp [fibInt]
    have hpush : (List.range m).map fibInt ++ [fibInt m] = (List.range (m + 1)).map fibInt := by
      simp [List.range_succ]
    have hrec := ih f (m + 1) (iters + 1) (by omega) (by push_cast; omega) (by push_cast; omega)
    rw [← Nat.add_assoc f k 1, growLoop, if_pos hle, h1, h2, hv1, hv2]
    simp only [hnext, hpush, h3]
    rw [hrec, Nat.add_right_comm m 1 k, Nat.add_right_comm iters 1 k, Nat.add_assoc m k 1,
      Nat.add_assoc iters k 1]

/-- With the count `INT_MAX`, a loop that reaches the counter `INT_MAX` with
that many elements runs the body twice more, the counter wrapping to `INT_MIN`
in between, and then reads `numbers[i - 1]` at the index `2^64 - 2^31`. -/
theorem growLoop_wrapped_fault (f : Nat) (numbers : List Int) (iters : Nat)
    (hlen : numbers.length = 2147483647) :
    growLoop (f + 3) INT_MAX 2147483647 numbers iters = .error .outOfBounds := by
  have ha1 : toSizeT (subInt 2147483647 1) = 2147483646 := by decide
  have ha2 : toSizeT (subInt 2147483647 2) = 2147483645 := by decide
  have hb1 : toSizeT (subInt (-2147483648) 1) = 2147483647 := by decide
  have hb2 : toSizeT (subInt (-2147483648) 2) = 2147483646 := by decide
  have hc1 : toSizeT (subInt (-2147483647) 1) = 18446744071562067968 := by decide
  have hi1 : addInt 2147483647 1 = -2147483648 := by decide
  have hi2 : addInt (-2147483648) 1 = -2147483647 := by decide
  obtain ⟨v, hv⟩ := growLoop_body (f + 2) INT_MAX 2147483647 numbers iters (by decide)
    (by rw [ha1, hlen]; decide) (by rw [ha2, hlen]; decide)
  rw [hi1] at hv
  obtain ⟨w, hw⟩ := growLoop_body (f + 1) INT_MAX (-2147483648) (numbers ++ [v]) (iters + 1)
    (by decide) (by rw [hb1, List.length_append, List.length_singleton, hlen]; decide)
    (by rw [hb2, List.length_append, List.length_singleton, hlen]; decide)
  rw [hi2] at hw
  have hz := growLoop_fault f INT_MAX (-2147483647) (numbers ++ [v] ++ [w]) (iters + 1 + 1)
    (by decide) (by rw [hc1, List.length_append, List.length_append, List.length_singleton,
      List.length_singleton, hlen]; decide)
  exact hv.trans (hw.trans hz)

/-- With the count `INT_MAX` and fuel for `2^31` iterations or more, the growth
loop ends in the out-of-bounds fault. -/
theorem growSequence_INT_MAX_fault (f : Nat) :
    growSequence (f + 2147483648) INT_MAX = .error .outOfBounds := by
  have hsteps := growLoop_steps INT_MAX 2147483645 (f + 3) 2 0 (by decide) (by decide)
    (by decide)
  have hseed : (List.range 2).map fibInt = [0, 1] := by decide
  rw [hseed] at hsteps
  simp only [Nat.cast_ofNat] at hsteps
  rw [growSequence, show f + 2147483648 = f + 3 + 2147483645 by omega, hsteps]
  exact growLoop_wrapped_fault f _ _ (by rw [List.length_map, List.length_range])

/-- With the count `INT_MAX` no amount of fuel yields a sequence. -/
theorem buildSequence_INT_MAX_not_ok (fuel : Nat) (numbers : List Int) :
    buildSequence fuel INT_MAX ≠ .ok numbers := by
  intro h
  rw [buildSequence] at h
  cases hg : growSequence fuel INT_MAX with
  | error e =>
    rw [hg] at h
    simp at h
  | ok r => exact growLoop_INT_MAX_not_ok fuel 2 [0, 1] 0 r (by decide) hg

/-- With the count `INT_MAX` no amount of fuel lets the function return. -/
theorem fibonacciSequence_INT_MAX_not_ok (fuel : Nat) (lines : List String) :
    fibonacciSequence fuel INT_MAX ≠ .ok lines := by
  intro h
  rw [fibonacciSequence] at h
  cases hb : buildSequence fuel INT_MAX with
  | error e =>
    rw [hb] at h
    simp at h
  | ok numbers => exact buildSequence_INT_MAX_not_ok fuel numbers hb

/-! ## The claims -/

/-- C2, as stated, fails at the count `INT_MAX`, which is at least 2: no run
builds a sequence there, of `INT_MAX + 1` elements or of any other length. -/
theorem buildSequence_length_fails_at_INT_MAX :
    (2 : Int) ≤ INT_MAX ∧
      ¬ ∃ (fuel : Nat) (numbers : List Int), buildSequence fuel INT_MAX = .ok numbers ∧
        (numbers.length : Int) = INT_MAX + 1 := by
  refine ⟨by decide, ?_⟩
  rintro ⟨fuel, numbers, h, _⟩
  exact buildSequence_INT_MAX_not_ok fuel numbers h

/-- C2, amended: for every count `N` with `2 ≤ N < INT_MAX`, a run with enough fuel
builds a sequence of exactly `N + 1` elements. -/
theorem buildSequence_length (N : Int) (fuel : Nat) (h2 : 2 ≤ N) (hN : N < INT_MAX)
    (hfuel : N ≤ (fuel : Int)) :
    ∃ numbers, buildSequence fuel N = .ok numbers ∧ (numbers.length : Int) = N + 1 := by
  refine ⟨_, buildSequence_eq N fuel hN (by omega) hfuel, ?_⟩
  simp only [List.length_map, List.length_range]
  unfold seqLength
  split <;> omega

theorem buildSequence_length_witness :
    (2 : Int) ≤ 5 ∧ (5 : Int) < INT_MAX ∧ (5 : Int) ≤ ((5 : Nat) : Int) ∧
      ∃ numbers, buildSequence 5 5 = .ok numbers ∧ (numbers.length : Int) = 5 + 1 :=
  ⟨by decide, by decide, by decide, buildSequence_length 5 5 (by decide) (by decide) (by decide)⟩

/-- C5, as stated, fails at the count `INT_MAX`: the function never gets to
its print loop there, and no run returns data lines. -/
theorem fibonacciSequence_lines_fails_at_INT_MAX :
    ¬ ∃ (fuel : Nat) (numbers : List Int) (lines : List String),
      buildSequence fuel INT_MAX = .ok numbers ∧ fibonacciSequence fuel INT_MAX = .ok lines ∧
      lines.length = numbers.length ∧
      ∀ i : Nat, i < numbers.length →
        ∃ v, numbers[i]? = some v ∧
          lines[i]? = some (toString (i : Int) ++ " - " ++ toString v) := by
  rintro ⟨fuel, numbers, lines, _, h, _⟩
  exact fibonacciSequence_INT_MAX_not_ok fuel lines h

/-- C5, amended: for every count `N` below `INT_MAX`, a run with enough fuel writes one
data line per element of the sequence built, in index order: line `i` is the
decimal rendering of `i`, then `" - "`, then the decimal rendering of element
`i`.  For `N = 5` the lines are `0 - 0`, `1 - 1`, `2 - 1`, `3 - 2`, `4 - 3`,
`5 - 5`. -/
theorem fibonacciSequence_lines (N : Int) (fuel : Nat) (hN : N < INT_MAX) (h2 : 2 < fuel)
    (hfuel : N + 1 < (fuel : Int)) :
    ∃ numbers lines, buildSequence fuel N = .ok numbers ∧ fibonacciSequence fuel N = .ok lines ∧
      lines.length = numbers.length ∧
      (∀ i : Nat, i < numbers.length →
        ∃ v, numbers[i]? = some v ∧
          lines[i]? = some (toString (i : Int) ++ " - " ++ toString v)) ∧
      (N = 5 → lines = ["0 - 0", "1 - 1", "2 - 1", "3 - 2", "4 - 3", "5 - 5"]) := by
  refine ⟨_, _, buildSequence_eq N fuel hN (by omega) (by omega),
    fibonacciSequence_eq N fuel hN h2 hfuel, linesFrom_length _ 0, ?_, ?_⟩
  · intro i hi
    rw [List.length_map, List.length_range] at hi
    refine ⟨fibInt i, getElem?_fibInt_range _ _ hi, ?_⟩
    rw [linesFrom_getElem?, getElem?_fibInt_range _ _ hi, Nat.zero_add]
    rfl
  · rintro rfl
    decide

theorem fibonacciSequence_lines_witness :
    (5 : Int) < INT_MAX ∧ 2 < 7 ∧ (5 : Int) + 1 < ((7 : Nat) : Int) ∧
      ∃ numbers lines, buildSequence 7 5 = .ok numbers ∧ fibonacciSequence 7 5 = .ok lines ∧
        lines.length = numbers.length ∧
        (∀ i : Nat, i < numbers.length →
          ∃ v, numbers[i]? = some v ∧
            lines[i]? = some (toString (i : Int) ++ " - " ++ toString v)) ∧
        ((5 : Int) = 5 → lines = ["0 - 0", "1 - 1", "2 - 1", "3 - 2", "4 - 3", "5 - 5"]) :=
  ⟨by decide, by decide, by decide, fibonacciSequence_lines 5 7 (by decide) (by decide) (by decide)⟩

/-- C6, as stated, fails at count 0: the timed run writes three lines (the two
seed lines and the timing line), not `0 + 2`. -/
theorem timedRun_zero_three_lines :
    timedRun 3 1000000000 0 0 0
        = .ok (["0 - 0", "1 - 1", "Time taken by the function: 0 seconds"], 0) ∧
      ((["0 - 0", "1 - 1", "Time taken by the function: 0 seconds"].length : Int) ≠ 0 + 2) := by
  decide

/-- C6, amended: for every count `N` with `1 ≤ N < INT_MAX`, the output of a
timed run with count `N` is the `N + 1` data lines of `fibonacciSequence(N)`
followed by one timing line, `N + 2` lines in all; for `N ≤ 0` it is the two
seed lines followed by the timing line, 3 lines in all. -/
theorem timedRun_line_count (N : Int) (fuel ticksPerSecond : Nat) (start stop : Int)
    (hN : N < INT_MAX) (h2 : 2 < fuel) (hfuel : N + 1 < (fuel : Int)) :
    ∃ data, fibonacciSequence fuel N = .ok data ∧
      timedRun fuel ticksPerSecond start stop N
        = .ok (data ++ [timingLine (durationSeconds ticksPerSecond (stop - start))], 0) ∧
      (1 ≤ N → (data.length : Int) = N + 1 ∧
        ((data ++ [timingLine (durationSeconds ticksPerSecond (stop - start))]).length : Int)
          = N + 2) ∧
      (N ≤ 0 → data.length = 2 ∧
        (data ++ [timingLine (durationSeconds ticksPerSecond (stop - start))]).length = 3) := by
  refine ⟨_, fibonacciSequence_eq N fuel hN h2 hfuel,
    timedRun_eq fuel ticksPerSecond start stop N hN h2 hfuel, ?_, ?_⟩
  · intro h1
    have hlen : ((seqLength N : Nat) : Int) = N + 1 := by
      unfold seqLength
      split <;> omega
    rw [List.length_append, linesFrom_length, List.length_map, List.length_range,
      List.length_singleton]
    push_cast
    omega
  · intro h0
    have hlen : seqLength N = 2 := by
      unfold seqLength
      split <;> omega
    rw [List.length_append, linesFrom_length, List.length_map, List.length_range,
      List.length_singleton, hlen]
    exact ⟨rfl, rfl⟩

theorem timedRun_line_count_witness :
    (1 : Int) < INT_MAX ∧ 2 < 3 ∧ (1 : Int) + 1 < ((3 : Nat) : Int) ∧
      ∃ data, fibonacciSequence 3 1 = .ok data ∧
        timedRun 3 1000000000 0 2500000000 1
          = .ok (data ++ [timingLine (durationSeconds 1000000000 (2500000000 - 0))], 0) ∧
        ((1 : Int) ≤ 1 → (data.length : Int) = 1 + 1 ∧
          ((data ++ [timingLine (durationSeconds 1000000000 (2500000000 - 0))]).length : Int)
            = 1 + 2) ∧
        ((1 : Int) ≤ 0 → data.length = 2 ∧
          (data ++ [timingLine (durationSeconds 1000000000 (2500000000 - 0))]).length = 3) :=
  ⟨by decide, by decide, by decide,
    timedRun_line_count 1 3 1000000000 0 2500000000 (by decide) (by decide) (by decide)⟩

/-- C7: for every count `N < 2` the growth loop body runs zero times, the
sequence is `[0, 1]`, and exactly the two data lines `0 - 0` and `1 - 1` are
written. -/
theorem fibonacciSequence_below_two (N : Int) (fuel : Nat) (hN : N < 2) (hfuel : 2 < fuel) :
    growSequence fuel N = .ok ([0, 1], 0) ∧ buildSequence fuel N = .ok [0, 1] ∧
      fibonacciSequence fuel N = .ok ["0 - 0", "1 - 1"] := by
  have hgrow := growSequence_small N fuel hN (by omega)
  have hbuild : buildSequence fuel N = .ok [0, 1] := by rw [buildSequence, hgrow]
  refine ⟨hgrow, hbuild, ?_⟩
  rw [fibonacciSequence_of_build fuel N [0, 1] hbuild (by decide) hfuel]
  decide

theorem fibonacciSequence_below_two_witness :
    (-3 : Int) < 2 ∧ 2 < 3 ∧ growSequence 3 (-3) = .ok ([0, 1], 0) ∧
      buildSequence 3 (-3) = .ok [0, 1] ∧ fibonacciSequence 3 (-3) = .ok ["0 - 0", "1 - 1"] :=
  ⟨by decide, by decide, fibonacciSequence_below_two (-3) 3 (by decide) (by decide)⟩

/-- C8, as stated, fails at count 0: the sequence built is `[0, 1]`, of length
2, not `0 + 1`. -/
theorem buildSequence_zero_length_two :
    buildSequence 1 0 = .ok [0, 1] ∧ (([0, 1] : List Int).length : Int) ≠ 0 + 1 := by
  decide

/-- C8, amended: for every count `N` with `1 ≤ N < INT_MAX` the sequence built
has exactly `N + 1` elements, `N = 1` included; for `N = 0` it has the two
seeds. -/
theorem buildSequence_length_nonneg (N : Int) (fuel : Nat) (hN : N < INT_MAX)
    (hpos : 0 < fuel) (hfuel : N ≤ (fuel : Int)) :
    ∃ numbers, buildSequence fuel N = .ok numbers ∧
      (1 ≤ N → (numbers.length : Int) = N + 1) ∧ (N = 0 → numbers.length = 2) := by
  refine ⟨_, buildSequence_eq N fuel hN hpos hfuel, ?_, ?_⟩
  · intro h1
    rw [List.length_map, List.length_range]
    unfold seqLength
    split <;> omega
  · intro hz
    rw [List.length_map, List.length_range]
    unfold seqLength
    split <;> omega

theorem buildSequence_length_nonneg_witness :
    (1 : Int) < INT_MAX ∧ 0 < 1 ∧ (1 : Int) ≤ ((1 : Nat) : Int) ∧
      ∃ numbers, buildSequence 1 1 = .ok numbers ∧
        ((1 : Int) ≤ 1 → (numbers.length : Int) = 1 + 1) ∧ ((1 : Int) = 0 → numbers.length = 2) :=
  ⟨by decide, by decide, by decide,
    buildSequence_length_nonneg 1 1 (by decide) (by decide) (by decide)⟩

/-- C9: for clock samples `start ≤ stop` and a positive tick rate, the program
ends its output with the line `Time taken by the function: <seconds> seconds`,
where `<seconds>` is the decimal rendering of the elapsed ticks `stop - start`
truncated to whole seconds: it is non-negative, and 0 when less than one
second elapsed. -/
theorem main_timing_line (fuel ticksPerSecond : Nat) (start stop : Int) (hfuel : 10001 < fuel)
    (htps : 0 < ticksPerSecond) (hle : start ≤ stop) :
    ∃ data seconds,
      main fuel ticksPerSecond start stop
        = .ok (data ++ ["Time taken by the function: " ++ toString seconds ++ " seconds"], 0) ∧
      0 ≤ seconds ∧ seconds * ticksPerSecond ≤ stop - start ∧
      stop - start < (seconds + 1) * ticksPerSecond ∧
      (stop - start < ticksPerSecond → seconds = 0) := by
  have hrun := timedRun_eq fuel ticksPerSecond start stop 10000 (by decide) (by omega)
    (by omega)
  exact ⟨_, durationSeconds ticksPerSecond (stop - start), hrun,
    durationSeconds_spec ticksPerSecond (stop - start) htps (by omega)⟩

theorem main_timing_line_witness :
    10001 < 10002 ∧ 0 < 1000000000 ∧ (5 : Int) ≤ 2500000005 ∧
      ∃ data seconds,
        main 10002 1000000000 5 2500000005
          = .ok (data ++ ["Time taken by the function: " ++ toString seconds ++ " seconds"],
              0) ∧
        0 ≤ seconds ∧ seconds * ((1000000000 : Nat) : Int) ≤ 2500000005 - 5 ∧
        2500000005 - 5 < (seconds + 1) * ((1000000000 : Nat) : Int) ∧
        ((2500000005 : Int) - 5 < ((1000000000 : Nat) : Int) → seconds = 0) :=
  ⟨by decide, by decide, by decide,
    main_timing_line 10002 1000000000 5 2500000005 (by decide) (by decide) (by decide)⟩

/-- C10: the program, run with enough fuel, writes the 10001 data lines of
`fibonacciSequence(10000)` first and, last, the timing line `Time taken by the
function: <seconds> seconds` for the whole seconds between the two clock
samples; its output starts with `0 - 0`, `1 - 1`, `2 - 1`, and it returns
status 0. -/
theorem main_output (fuel ticksPerSecond : Nat) (start stop : Int) (hfuel : 10001 < fuel) :
    ∃ data, fibonacciSequence fuel 10000 = .ok data ∧ data.length = 10001 ∧
      main fuel ticksPerSecond start stop
        = .ok (data ++ ["Time taken by the function: "
            ++ toString (Int.tdiv (stop - start) (ticksPerSecond : Int)) ++ " seconds"], 0) ∧
      (data ++ ["Time taken by the function: "
          ++ toString (Int.tdiv (stop - start) (ticksPerSecond : Int)) ++ " seconds"]).take 3
        = ["0 - 0", "1 - 1", "2 - 1"] ∧
      (data ++ ["Time taken by the function: "
          ++ toString (Int.tdiv (stop - start) (ticksPerSecond : Int)) ++ " seconds"]).getLast?
        = some ("Time taken by the function: "
            ++ toString (Int.tdiv (stop - start) (ticksPerSecond : Int)) ++ " seconds") := by
  have hlen : seqLength 10000 = 3 + 9998 := by decide
  refine ⟨_, fibonacciSequence_eq 10000 fuel (by decide) (by omega) (by omega), ?_,
    timedRun_eq fuel ticksPerSecond start stop 10000 (by decide) (by omega) (by omega), ?_, ?_⟩
  · rw [linesFrom_length, List.length_map, List.length_range, hlen]
  · rw [hlen]
    exact linesFrom_fibInt_take_three 9998 _
  · exact List.getLast?_concat _

theorem main_output_witness :
    10001 < 10002 ∧
      ∃ data, fibonacciSequence 10002 10000 = .ok data ∧ data.length = 10001 ∧
        main 10002 1000000000 0 2500000000
          = .ok (data ++ ["Time taken by the function: "
              ++ toString (Int.tdiv ((2500000000 : Int) - 0) ((1000000000 : Nat) : Int))
              ++ " seconds"], 0) ∧
        (data ++ ["Time taken by the function: "
            ++ toString (Int.tdiv ((2500000000 : Int) - 0) ((1000000000 : Nat) : Int))
            ++ " seconds"]).take 3
          = ["0 - 0", "1 - 1", "2 - 1"] ∧
        (data ++ ["Time taken by the function: "
            ++ toString (Int.tdiv ((2500000000 : Int) - 0) ((1000000000 : Nat) : Int))
            ++ " seconds"]).getLast?
          = some ("Time taken by the function: "
              ++ toString (Int.tdiv ((2500000000 : Int) - 0) ((1000000000 : Nat) : Int))
              ++ " seconds") :=
  ⟨by decide, main_output 10002 1000000000 0 2500000000 (by decide)⟩

/-- C11, as stated, fails at the count `INT_MAX`: once the counter has wrapped
the run is aborted by an out-of-bounds read, and no run returns a sequence
whose elements could be the wrapped Fibonacci numbers. -/
theorem buildSequence_wraparound_fails_at_INT_MAX :
    buildSequence 2147483648 INT_MAX = .error .outOfBounds ∧
      ¬ ∃ (fuel : Nat) (numbers : List Int), buildSequence fuel INT_MAX = .ok numbers ∧
        ∀ i : Nat, (i : Int) ≤ INT_MAX →
          ∃ v, numbers[i]? = some v ∧ INT_MIN ≤ v ∧ v ≤ INT_MAX ∧
            (v - (Nat.fib i : Int)) % 4294967296 = 0 := by
  constructor
  · have h : growSequence 2147483648 INT_MAX = .error .outOfBounds :=
      growSequence_INT_MAX_fault 0
    rw [buildSequence, h]
  · rintro ⟨fuel, numbers, h, _⟩
    exact buildSequence_INT_MAX_not_ok fuel numbers h

/-- C11, amended: for every count `N` below `INT_MAX` and every index `i ≤ N`, element
`i` is the one integer of `[-2^31, 2^31)` congruent to the true Fibonacci
number `F(i)` modulo `2^32`; element 47 is `2971215073 - 2^32 = -1323752223`.
The run still returns, and for `N ≥ 2` the sequence still has `N + 1`
elements: overflow changes values only. -/
theorem buildSequence_wraparound (N : Int) (fuel : Nat) (hN : N < INT_MAX) (h0 : 0 < fuel)
    (hfuel : N ≤ (fuel : Int)) :
    ∃ numbers, buildSequence fuel N = .ok numbers ∧
      (2 ≤ N → (numbers.length : Int) = N + 1) ∧
      ∀ i : Nat, (i : Int) ≤ N →
        ∃ v, numbers[i]? = some v ∧ INT_MIN ≤ v ∧ v ≤ INT_MAX ∧
          (v - (Nat.fib i : Int)) % 4294967296 = 0 ∧
          (∀ w : Int, INT_MIN ≤ w → w ≤ INT_MAX → (w - (Nat.fib i : Int)) % 4294967296 = 0 →
            w = v) ∧
          (i = 47 → v = 2971215073 - 4294967296 ∧ v = -1323752223) := by
  refine ⟨_, buildSequence_eq N fuel hN h0 hfuel, ?_, ?_⟩
  · intro h2
    rw [List.length_map, List.length_range]
    unfold seqLength
    split <;> omega
  · intro i hi
    refine ⟨fibInt i, getElem?_fibInt_range _ _ (lt_seqLength N i hi), ?_⟩
    have hr := wrapInt_range (Nat.fib i)
    rw [fibInt_eq_wrapInt]
    refine ⟨hr.1, hr.2, ?_, ?_, ?_⟩
    · unfold wrapInt
      omega
    · intro w hw1 hw2 hw
      unfold INT_MIN at hw1
      unfold INT_MAX at hw2
      unfold wrapInt
      omega
    · rintro rfl
      rw [fib_47]
      decide

theorem buildSequence_wraparound_witness :
    (48 : Int) < INT_MAX ∧ 0 < 50 ∧ (48 : Int) ≤ ((50 : Nat) : Int) ∧
      ∃ numbers, buildSequence 50 48 = .ok numbers ∧
        ((2 : Int) ≤ 48 → (numbers.length : Int) = 48 + 1) ∧
        ∀ i : Nat, (i : Int) ≤ 48 →
          ∃ v, numbers[i]? = some v ∧ INT_MIN ≤ v ∧ v ≤ INT_MAX ∧
            (v - (Nat.fib i : Int)) % 4294967296 = 0 ∧
            (∀ w : Int, INT_MIN ≤ w → w ≤ INT_MAX →
              (w - (Nat.fib i : Int)) % 4294967296 = 0 → w = v) ∧
            (i = 47 → v = 2971215073 - 4294967296 ∧ v = -1323752223) :=
  ⟨by decide, by decide, by decide,
    buildSequence_wraparound 48 50 (by decide) (by decide) (by decide)⟩

/-- C12, as stated, fails at the count `INT_MAX`: after `2^31` iterations the
wrapped counter makes `numbers[i - 1]` an out-of-bounds read, and the run ends
in the out-of-bounds branch. -/
theorem fibonacciSequence_INT_MAX_out_of_bounds :
    growSequence 2147483648 INT_MAX = .error .outOfBounds ∧
      fibonacciSequence 2147483648 INT_MAX = .error .outOfBounds := by
  have h : growSequence 2147483648 INT_MAX = .error .outOfBounds :=
    growSequence_INT_MAX_fault 0
  refine ⟨h, ?_⟩
  rw [fibonacciSequence, buildSequence, h]

/-- C12, amended: for every count `N` below `INT_MAX` and whatever the fuel,
every execution of the growth loop body for a counter `i` starts with exactly
`i ≥ 2` elements in the vector, so that the indices `i - 1` and `i - 2` are
below its size; with enough fuel these executions are those for `i = 2, ...,
N`.  The print loop never reads at or beyond the size, and neither the growth
loop nor the whole function ends in the out-of-bounds branch; with enough
fuel the function returns. -/
theorem fibonacciSequence_in_bounds (N : Int) (fuel : Nat) (hN : N < INT_MAX) :
    (∀ p ∈ growTrace fuel N 2 [0, 1],
      2 ≤ p.1 ∧ (p.2 : Int) = p.1 ∧ toSizeT (subInt p.1 1) < p.2 ∧
        toSizeT (subInt p.1 2) < p.2) ∧
    (0 < fuel → N ≤ (fuel : Int) →
      growTrace fuel N 2 [0, 1]
        = (List.range' 2 (seqLength N - 2)).map (fun j : Nat => ((j : Int), j))) ∧
    growSequence fuel N ≠ .error .outOfBounds ∧
    (∀ (g : Nat) (i : Int) (numbers : List Int) (out : List String),
      printLoop g i numbers out ≠ .error .outOfBounds) ∧
    fibonacciSequence fuel N ≠ .error .outOfBounds ∧
    (2 < fuel → N + 1 < (fuel : Int) → ∃ lines, fibonacciSequence fuel N = .ok lines) := by
  have hgrow : growSequence fuel N ≠ .error .outOfBounds :=
    growLoop_no_fault N hN fuel 2 [0, 1] 0 (by omega) rfl
  refine ⟨growTrace_inv N hN fuel 2 [0, 1] (by omega) rfl, ?_, hgrow, printLoop_no_fault, ?_,
    fun h2 hfuel => ⟨_, fibonacciSequence_eq N fuel hN h2 hfuel⟩⟩
  · intro h0 hfuel
    by_cases h2 : N < 2
    · obtain ⟨f, rfl⟩ : ∃ f, fuel = f + 1 := ⟨fuel - 1, by omega⟩
      have hlen : seqLength N - 2 = 0 := by
        unfold seqLength
        split <;> omega
      rw [growTrace, if_neg (by omega), hlen]
      rfl
    · have hlen : ((seqLength N - 2 : Nat) : Int) = N - 1 := by
        unfold seqLength
        split <;> omega
      exact growTrace_eq N hN (seqLength N - 2) fuel 2 [0, 1] (by omega) rfl
        (by push_cast; omega) (by omega)
  · rw [fibonacciSequence, buildSequence]
    cases hg : growSequence fuel N with
    | error e =>
      intro h
      apply hgrow
      rw [hg]
      simpa using h
    | ok r => exact printLoop_no_fault fuel 0 r.1 []

theorem fibonacciSequence_in_bounds_witness :
    (5 : Int) < INT_MAX ∧
      (∀ p ∈ growTrace 7 5 2 [0, 1],
        2 ≤ p.1 ∧ (p.2 : Int) = p.1 ∧ toSizeT (subInt p.1 1) < p.2 ∧
          toSizeT (subInt p.1 2) < p.2) ∧
      (0 < 7 → (5 : Int) ≤ ((7 : Nat) : Int) →
        growTrace 7 5 2 [0, 1]
          = (List.range' 2 (seqLength 5 - 2)).map (fun j : Nat => ((j : Int), j))) ∧
      growSequence 7 5 ≠ .error .outOfBounds ∧
      (∀ (g : Nat) (i : Int) (numbers : List Int) (out : List String),
        printLoop g i numbers out ≠ .error .outOfBounds) ∧
      fibonacciSequence 7 5 ≠ .error .outOfBounds ∧
      (2 < 7 → (5 : Int) + 1 < ((7 : Nat) : Int) → ∃ lines, fibonacciSequence 7 5 = .ok lines) :=
  ⟨by decide, fibonacciSequence_in_bounds 5 7 (by decide)⟩

/-- C13, as stated, fails at the count `INT_MAX`: the test `i <= no` holds for
every value of the wrapping counter, and no amount of fuel lets the growth
loop return. -/
theorem growSequence_INT_MAX_never_returns :
    ¬ ∃ (fuel : Nat) (r : List Int × Nat), growSequence fuel INT_MAX = .ok r := by
  rintro ⟨fuel, r, h⟩
  exact growLoop_INT_MAX_not_ok fuel 2 [0, 1] 0 r (by decide) h

/-- C13, amended: for every count `N` below `INT_MAX` the growth loop, its
counter wrapping on overflow, returns after exactly `max(0, N - 1)`
iterations. -/
theorem growSequence_terminates (N : Int) (fuel : Nat) (hN : N < INT_MAX) (h0 : 0 < fuel)
    (hfuel : N ≤ (fuel : Int)) :
    ∃ numbers, growSequence fuel N = .ok (numbers, (max 0 (N - 1)).toNat) := by
  refine ⟨(List.range (seqLength N)).map fibInt, ?_⟩
  rw [growSequence_eq N fuel hN h0 hfuel]
  have hit : seqLength N - 2 = (max 0 (N - 1)).toNat := by
    unfold seqLength
    split <;> omega
  rw [hit]

theorem growSequence_terminates_witness :
    (5 : Int) < INT_MAX ∧ 0 < 5 ∧ (5 : Int) ≤ ((5 : Nat) : Int) ∧
      ∃ numbers, growSequence 5 5 = .ok (numbers, (max 0 ((5 : Int) - 1)).toNat) :=
  ⟨by decide, by decide, by decide,
    growSequence_terminates 5 5 (by decide) (by decide) (by decide)⟩

end TerminalChess
